import Mathlib

/-!
Shallow embedding of the jeopardy-tool library (src/src/lib.rs and
src/src/main.rs).

The data model is the Rust entity hierarchy JeopardyGame → JeopardyCategory →
JeopardyAnswer, the operations are is_valid and double_jeopardy, and the
command surface is show together with the Termination instance of ToolResult.

Randomness: the Rust double_jeopardy methods build the index list
0..len, shuffle it with a thread-local RNG and take the first two indices.
The embedding takes the shuffled list as an explicit parameter; theorems that
depend on the shuffle being a shuffle carry the hypothesis that this
parameter is a permutation of List.range len.  The game-level method draws a
fresh shuffle inside each selected category, so it additionally takes a
function from the loop position (0 or 1) to that iteration's inner shuffle.

Rust's Vec indexing self.answers[i] panics out of bounds; the embedding's
modifyIdx returns the list unchanged there.  Both behaviours agree on every
execution of the program because each index is drawn from a permutation of
List.range len, hence in bounds (proved below for the claims that need it).
-/

/-- Model of std::path::PathBuf: only equality of paths matters here. -/
abbrev PathBuf := String

/-- The ToolError enum of lib.rs: a single catch-all variant wrapping a
message string. -/
inductive ToolError where
  | Other : String → ToolError
deriving DecidableEq, Repr

/-- The Display implementation for ToolError in lib.rs. -/
def ToolError.display : ToolError → String
  | .Other e => "Some other error: " ++ e

/-- The ToolResult enum of lib.rs, a Result-like sum. -/
inductive ToolResult (T : Type) where
  | Ok : T → ToolResult T
  | Err : ToolError → ToolResult T
deriving DecidableEq, Repr

/-- Model of std::process::ExitCode as far as the tool uses it. -/
inductive ExitCode where
  | SUCCESS : ExitCode
  | FAILURE : ExitCode
deriving DecidableEq, Repr

/-- The Termination impl for ToolResult in lib.rs: Ok yields the success
exit code and prints nothing; Err prints the error's Display text on stderr
and yields the failure exit code.  The second component models the lines
written to stderr. -/
def ToolResult.report {T : Type} : ToolResult T → ExitCode × List String
  | .Ok _ => (ExitCode.SUCCESS, [])
  | .Err e => (ExitCode.FAILURE, [e.display])

/-- The JeopardyAnswer enum of lib.rs: four variants, each carrying a
question, a payload (answer text or an asset path) and a double_jeopardy
flag. -/
inductive JeopardyAnswer where
  | Text : (answer : String) → (question : String) → (double_jeopardy : Bool) → JeopardyAnswer
  | Image : (question : String) → (image : PathBuf) → (double_jeopardy : Bool) → JeopardyAnswer
  | Audio : (question : String) → (audio : PathBuf) → (double_jeopardy : Bool) → JeopardyAnswer
  | Video : (question : String) → (video : PathBuf) → (double_jeopardy : Bool) → JeopardyAnswer
deriving DecidableEq, Repr

/-- JeopardyAnswer::is_valid of lib.rs: true for every variant. -/
def JeopardyAnswer.is_valid : JeopardyAnswer → Bool
  | .Text _ _ _ => true
  | .Image _ _ _ => true
  | .Audio _ _ _ => true
  | .Video _ _ _ => true

/-- The double_jeopardy field shared by all four variants. -/
def JeopardyAnswer.dj : JeopardyAnswer → Bool
  | .Text _ _ d => d
  | .Image _ _ d => d
  | .Audio _ _ d => d
  | .Video _ _ d => d

/-- The match arm bodies in JeopardyCategory::double_jeopardy of lib.rs:
whatever the variant, set its double_jeopardy field to true. -/
def JeopardyAnswer.set_dj : JeopardyAnswer → JeopardyAnswer
  | .Text a q _ => .Text a q true
  | .Image q i _ => .Image q i true
  | .Audio q a _ => .Audio q a true
  | .Video q v _ => .Video q v true

/-- Helper: the same answer with its double_jeopardy field forced to false.
Two answers with equal clear_dj images agree on variant, question and
payload and differ at most in the flag. -/
def JeopardyAnswer.clear_dj : JeopardyAnswer → JeopardyAnswer
  | .Text a q _ => .Text a q false
  | .Image q i _ => .Image q i false
  | .Audio q a _ => .Audio q a false
  | .Video q v _ => .Video q v false

/-- The JeopardyCategory struct of lib.rs. -/
structure JeopardyCategory where
  name : String
  answers : List JeopardyAnswer
deriving DecidableEq, Repr

/-- The JeopardyGame struct of lib.rs. -/
structure JeopardyGame where
  categories : List JeopardyCategory
deriving DecidableEq, Repr

/-- JeopardyGame::new of lib.rs: a game with an empty category vector. -/
def JeopardyGame.new : JeopardyGame := { categories := [] }

/-- JeopardyCategory::is_valid of lib.rs: 5 answers, all individually
valid. -/
def JeopardyCategory.is_valid (c : JeopardyCategory) : Bool :=
  c.answers.length == 5 && c.answers.all (fun a => a.is_valid)

/-- JeopardyGame::is_valid of lib.rs: 5 categories, all individually
valid. -/
def JeopardyGame.is_valid (g : JeopardyGame) : Bool :=
  g.categories.length == 5 && g.categories.all (fun c => c.is_valid)

/-- In-place update of one vector slot, Rust's v[i] = f(v[i]).  Out of
range it leaves the list unchanged (the program only uses in-range indices,
see the header note). -/
def modifyIdx {α : Type} (f : α → α) : Nat → List α → List α
  | _, [] => []
  | 0, a :: as => f a :: as
  | n + 1, a :: as => a :: modifyIdx f n as

/-- The index prefix indices.iter().take(2) consumed by both
double_jeopardy loops in lib.rs. -/
def djSelection (indices : List Nat) : List Nat := indices.take 2

/-- JeopardyCategory::double_jeopardy of lib.rs.  indices stands for the
shuffled index vector over the answers; for each of its first two entries
the answer at that index has its flag set to true. -/
def JeopardyCategory.double_jeopardy (c : JeopardyCategory) (indices : List Nat) :
    JeopardyCategory :=
  { c with
    answers :=
      (djSelection indices).foldl (fun ans i => modifyIdx JeopardyAnswer.set_dj i ans)
        c.answers }

/-- JeopardyGame::double_jeopardy of lib.rs.  indices stands for the
shuffled index vector over the categories; for the loop iteration at
position p (p = 0 or 1) the category at index (djSelection indices)[p]
runs its own double_jeopardy with the fresh inner shuffle inner p. -/
def JeopardyGame.double_jeopardy (g : JeopardyGame) (indices : List Nat)
    (inner : Nat → List Nat) : JeopardyGame :=
  { g with
    categories :=
      ((djSelection indices).enum).foldl
        (fun cats pi =>
          modifyIdx (fun c => c.double_jeopardy (inner pi.1)) pi.2 cats)
        g.categories }

/-- The show function of lib.rs: prints the given option and a freshly
constructed empty game, runs is_valid and double_jeopardy on it (the empty
game has no categories, so the shuffle of the empty index range is the
empty list), discards the game, and unconditionally returns the Other
error with message "Some error". -/
def «show» (pre : Option String) : ToolResult Unit :=
  let jeopardy_game := JeopardyGame.new
  let _ := pre
  let _ := jeopardy_game.is_valid
  let _ := jeopardy_game.double_jeopardy [] (fun _ => [])
  ToolResult.Err (ToolError.Other "Some error")

/-- Number of answers of a category whose double_jeopardy flag is true. -/
def countDJ (c : JeopardyCategory) : Nat :=
  c.answers.countP (fun a => a.dj)

/-- The category with every answer's flag forced to false; equality of
clear_dj images says the mutation changed nothing but flags. -/
def JeopardyCategory.clear_dj (c : JeopardyCategory) : JeopardyCategory :=
  { c with answers := c.answers.map JeopardyAnswer.clear_dj }

/-- The game with every answer's flag forced to false. -/
def JeopardyGame.clear_dj (g : JeopardyGame) : JeopardyGame :=
  { categories := g.categories.map JeopardyCategory.clear_dj }

/-- The flag of the answer at index ai of the category at index ci of a
category list; false when either index is out of range. -/
def JeopardyCategory.flaggedAt (c : JeopardyCategory) (ai : Nat) : Bool :=
  match c.answers.get? ai with
  | some a => a.dj
  | none => false

/-- Flag lookup through a list of categories. -/
def flaggedIn (cats : List JeopardyCategory) (ci ai : Nat) : Bool :=
  match cats.get? ci with
  | some c => c.flaggedAt ai
  | none => false

/-- Flag lookup in a game, by category index and answer index. -/
def JeopardyGame.flagged (g : JeopardyGame) (ci ai : Nat) : Bool :=
  flaggedIn g.categories ci ai

/-- The per-category answer counts of a game: its shape.  is_valid is shown
below to depend on nothing else. -/
def JeopardyGame.shape (g : JeopardyGame) : List Nat :=
  g.categories.map (fun c => c.answers.length)

/-- A fresh all-false Text answer, for concrete witness games. -/
def mkAnswer (i : Nat) : JeopardyAnswer :=
  .Text ("a" ++ toString i) ("q" ++ toString i) false

/-- A category with five fresh all-false Text answers. -/
def mkCategory (n : String) : JeopardyCategory :=
  { name := n, answers := (List.range 5).map mkAnswer }

/-- A concrete valid 5 × 5 game with every flag false. -/
def gameEx : JeopardyGame :=
  { categories := ["A", "B", "C", "D", "E"].map mkCategory }

/-- A second concrete 5 × 5 game of the same shape as gameEx but with
different names, variants, payloads and flags. -/
def gameEx2 : JeopardyGame :=
  { categories :=
      ["V", "W", "X", "Y", "Z"].map fun n =>
        { name := n,
          answers := (List.range 5).map fun i => .Image ("iq" ++ toString i) "pic.png" true } }

/-- A one-answer category, for the undersized-collection claim. -/
def tinyCategory : JeopardyCategory :=
  { name := "tiny", answers := [mkAnswer 0] }

/-- A category with a single flagged answer, for the monotonicity witness. -/
def flaggedCat : JeopardyCategory :=
  { name := "F", answers := [.Text "a" "q" true] }

/-- A game with a single flagged answer, for the monotonicity witness. -/
def flaggedGame : JeopardyGame :=
  { categories := [flaggedCat] }

/-! Basic facts about modifyIdx. -/

theorem modifyIdx_length {α : Type} (f : α → α) (n : Nat) (l : List α) :
    (modifyIdx f n l).length = l.length := by
  induction l generalizing n with
  | nil => cases n <;> rfl
  | cons a as ih =>
    cases n with
    | zero => rfl
    | succ m => simp [modifyIdx, ih]

theorem get?_modifyIdx_self {α : Type} (f : α → α) (n : Nat) (l : List α) :
    (modifyIdx f n l).get? n = (l.get? n).map f := by
  induction l generalizing n with
  | nil => cases n <;> rfl
  | cons a as ih =>
    cases n with
    | zero => rfl
    | succ m => simpa [modifyIdx] using ih m

theorem get?_modifyIdx_ne {α : Type} (f : α → α) {n k : Nat} (h : n ≠ k) (l : List α) :
    (modifyIdx f n l).get? k = l.get? k := by
  induction l generalizing n k with
  | nil => cases n <;> rfl
  | cons a as ih =>
    cases n with
    | zero =>
      cases k with
      | zero => exact absurd rfl h
      | succ j => rfl
    | succ m =>
      cases k with
      | zero => rfl
      | succ j =>
        have hmj : m ≠ j := fun hh => h (by rw [hh])
        simpa [modifyIdx] using ih hmj

theorem modifyIdx_oob {α : Type} (f : α → α) {n : Nat} {l : List α} (h : l.length ≤ n) :
    modifyIdx f n l = l := by
  induction l generalizing n with
  | nil => cases n <;> rfl
  | cons a as ih =>
    cases n with
    | zero => simp at h
    | succ m => simp [modifyIdx, ih (Nat.le_of_succ_le_succ h)]

theorem countP_modifyIdx {α : Type} (p : α → Bool) (f : α → α) {l : List α} {n : Nat} {a : α}
    (hget : l.get? n = some a) (ha : p a = false) (hfa : p (f a) = true) :
    (modifyIdx f n l).countP p = l.countP p + 1 := by
  induction l generalizing n with
  | nil => simp at hget
  | cons b bs ih =>
    cases n with
    | zero =>
      obtain rfl : b = a := by simpa using hget
      simp [modifyIdx, List.countP_cons, ha, hfa]
    | succ m =>
      have hrec := ih (n := m) (by simpa using hget)
      simp only [modifyIdx, List.countP_cons, hrec]
      omega

theorem map_modifyIdx {α β : Type} (m : α → β) (f : α → α) (h : ∀ a, m (f a) = m a)
    (n : Nat) (l : List α) : (modifyIdx f n l).map m = l.map m := by
  induction l generalizing n with
  | nil => cases n <;> rfl
  | cons a as ih =>
    cases n with
    | zero => simp [modifyIdx, h]
    | succ m => simp [modifyIdx, ih]

/-! Facts about the answer-level operations. -/

theorem dj_set_dj (a : JeopardyAnswer) : a.set_dj.dj = true := by
  cases a <;> rfl

theorem set_dj_set_dj (a : JeopardyAnswer) : a.set_dj.set_dj = a.set_dj := by
  cases a <;> rfl

theorem clear_dj_set_dj (a : JeopardyAnswer) : a.set_dj.clear_dj = a.clear_dj := by
  cases a <;> rfl

theorem answer_is_valid (a : JeopardyAnswer) : a.is_valid = true := by
  cases a <;> rfl

theorem all_answers_valid (l : List JeopardyAnswer) :
    l.all (fun a => a.is_valid) = true := by
  simp [List.all_eq_true, answer_is_valid]

theorem cat_is_valid_eq (c : JeopardyCategory) :
    c.is_valid = (c.answers.length == 5) := by
  rw [JeopardyCategory.is_valid, all_answers_valid, Bool.and_true]

theorem cat_is_valid_iff (c : JeopardyCategory) :
    c.is_valid = true ↔ c.answers.length = 5 := by
  rw [cat_is_valid_eq]
  exact beq_iff_eq

theorem game_is_valid_iff (g : JeopardyGame) :
    g.is_valid = true ↔ g.categories.length = 5 ∧ ∀ c ∈ g.categories, c.is_valid = true := by
  simp [JeopardyGame.is_valid, List.all_eq_true]

/-! The shape of the first two entries of a shuffled index list. -/

theorem take2_of_perm {idx : List Nat} {n : Nat} (hp : idx.Perm (List.range n))
    (hn : 2 ≤ n) : ∃ i j t, idx = i :: j :: t ∧ i ≠ j ∧ i < n ∧ j < n := by
  have hlen : idx.length = n := by simpa using hp.length_eq
  match idx, hlen with
  | [], hlen => simp at hlen; omega
  | [i], hlen => simp at hlen; omega
  | i :: j :: t, hlen =>
    have hnd : (i :: j :: t).Nodup := hp.symm.nodup (List.nodup_range n)
    have hij : i ≠ j := by
      rcases List.nodup_cons.mp hnd with ⟨hni, _⟩
      exact fun he => hni (he ▸ List.mem_cons_self j t)
    have hi : i < n := by
      have := hp.mem_iff.mp (List.mem_cons_self i (j :: t))
      exact List.mem_range.mp this
    have hj : j < n := by
      have := hp.mem_iff.mp (List.mem_cons_of_mem i (List.mem_cons_self j t))
      exact List.mem_range.mp this
    exact ⟨i, j, t, rfl, hij, hi, hj⟩

/-! Characterisation of the answer-level fold of
JeopardyCategory.double_jeopardy. -/

theorem foldl_setdj_get? (is : List Nat) (l : List JeopardyAnswer) (k : Nat) :
    (is.foldl (fun ans i => modifyIdx JeopardyAnswer.set_dj i ans) l).get? k =
      if k ∈ is then (l.get? k).map JeopardyAnswer.set_dj else l.get? k := by
  induction is generalizing l with
  | nil => simp
  | cons i is ih =>
    rw [List.foldl_cons, ih]
    by_cases hik : i = k
    · subst hik
      by_cases hk : i ∈ is
      · rw [if_pos hk, if_pos (List.mem_cons_self i is), get?_modifyIdx_self]
        cases l.get? i <;> simp [set_dj_set_dj]
      · rw [if_neg hk, if_pos (List.mem_cons_self i is), get?_modifyIdx_self]
    · rw [get?_modifyIdx_ne _ hik]
      by_cases hk : k ∈ is
      · rw [if_pos hk, if_pos (List.mem_cons_of_mem i hk)]
      · have hnm : k ∉ i :: is := by
          intro hm
          rcases List.mem_cons.mp hm with h | h
          · exact hik h.symm
          · exact hk h
        rw [if_neg hk, if_neg hnm]

theorem foldl_modify_length {α : Type} (f : α → α) (is : List Nat) (l : List α) :
    (is.foldl (fun ans i => modifyIdx f i ans) l).length = l.length := by
  induction is generalizing l with
  | nil => rfl
  | cons i is ih => rw [List.foldl_cons, ih, modifyIdx_length]

theorem cat_dj_get? (c : JeopardyCategory) (idx : List Nat) (k : Nat) :
    ((c.double_jeopardy idx).answers).get? k =
      if k ∈ djSelection idx then (c.answers.get? k).map JeopardyAnswer.set_dj
      else c.answers.get? k :=
  foldl_setdj_get? _ _ _

theorem cat_dj_name (c : JeopardyCategory) (idx : List Nat) :
    (c.double_jeopardy idx).name = c.name := rfl

theorem cat_dj_answers_length (c : JeopardyCategory) (idx : List Nat) :
    (c.double_jeopardy idx).answers.length = c.answers.length :=
  foldl_modify_length _ _ _

/-! Category-level consequences. -/

theorem cat_dj_unfold2 (c : JeopardyCategory) (p q : Nat) (t : List Nat) :
    c.double_jeopardy (p :: q :: t) =
      { c with
        answers :=
          modifyIdx JeopardyAnswer.set_dj q
            (modifyIdx JeopardyAnswer.set_dj p c.answers) } := rfl

theorem cat_dj_count (c : JeopardyCategory) (idx : List Nat)
    (hlen : c.answers.length = 5) (hall : ∀ a ∈ c.answers, a.dj = false)
    (hperm : idx.Perm (List.range 5)) :
    countDJ (c.double_jeopardy idx) = 2 := by
  obtain ⟨p, q, t, hidx, hpq, hp5, hq5⟩ := take2_of_perm hperm (by omega)
  subst hidx
  have hp : p < c.answers.length := by omega
  have hq : q < c.answers.length := by omega
  have hgetp : c.answers.get? p = some (c.answers.get ⟨p, hp⟩) := List.get?_eq_get hp
  have hdjp : (c.answers.get ⟨p, hp⟩).dj = false := hall _ (List.get_mem _ _ _)
  have h0 : c.answers.countP (fun a => a.dj) = 0 :=
    List.countP_eq_zero.mpr fun a ha => by simp [hall a ha]
  have h1 : (modifyIdx JeopardyAnswer.set_dj p c.answers).countP (fun a => a.dj) = 1 := by
    rw [countP_modifyIdx (fun a => a.dj) JeopardyAnswer.set_dj hgetp hdjp (dj_set_dj _), h0]
  have hgetq : (modifyIdx JeopardyAnswer.set_dj p c.answers).get? q =
      some (c.answers.get ⟨q, hq⟩) := by
    rw [get?_modifyIdx_ne _ hpq]
    exact List.get?_eq_get hq
  have hdjq : (c.answers.get ⟨q, hq⟩).dj = false := hall _ (List.get_mem _ _ _)
  rw [cat_dj_unfold2, countDJ]
  rw [countP_modifyIdx (fun a => a.dj) JeopardyAnswer.set_dj hgetq hdjq (dj_set_dj _), h1]

theorem cat_dj_flag_mono (c : JeopardyCategory) (idx : List Nat) (ai : Nat)
    (h : c.flaggedAt ai = true) : (c.double_jeopardy idx).flaggedAt ai = true := by
  rw [JeopardyCategory.flaggedAt] at h ⊢
  rw [cat_dj_get?]
  by_cases hm : ai ∈ djSelection idx
  · rw [if_pos hm]
    cases hget : c.answers.get? ai with
    | none => rw [hget] at h; exact absurd h (by simp)
    | some a => simp [dj_set_dj]
  · rw [if_neg hm]
    exact h

theorem foldl_setdj_clear (is : List Nat) (l : List JeopardyAnswer) :
    ((is.foldl (fun ans i => modifyIdx JeopardyAnswer.set_dj i ans) l).map
        JeopardyAnswer.clear_dj) = l.map JeopardyAnswer.clear_dj := by
  induction is generalizing l with
  | nil => rfl
  | cons i is ih =>
    rw [List.foldl_cons, ih, map_modifyIdx _ _ clear_dj_set_dj]

theorem cat_dj_clear (c : JeopardyCategory) (idx : List Nat) :
    (c.double_jeopardy idx).clear_dj = c.clear_dj := by
  rw [JeopardyCategory.clear_dj, JeopardyCategory.clear_dj]
  rw [JeopardyCategory.double_jeopardy]
  exact congrArg _ (foldl_setdj_clear _ _)

theorem cat_dj_all_false_of (c : JeopardyCategory) (hall : ∀ a ∈ c.answers, a.dj = false) :
    countDJ c = 0 := by
  rw [countDJ]
  exact List.countP_eq_zero.mpr fun a ha => by simp [hall a ha]

/-! Game-level consequences. -/

theorem game_dj_unfold2 (g : JeopardyGame) (i j : Nat) (t : List Nat)
    (inner : Nat → List Nat) :
    (g.double_jeopardy (i :: j :: t) inner).categories =
      modifyIdx (fun c => c.double_jeopardy (inner 1)) j
        (modifyIdx (fun c => c.double_jeopardy (inner 0)) i g.categories) := rfl

theorem flaggedIn_modifyIdx (G : JeopardyCategory → JeopardyCategory)
    (hG : ∀ c k, c.flaggedAt k = true → (G c).flaggedAt k = true)
    (n : Nat) (cats : List JeopardyCategory) (ci ai : Nat)
    (h : flaggedIn cats ci ai = true) :
    flaggedIn (modifyIdx G n cats) ci ai = true := by
  rw [flaggedIn] at h ⊢
  by_cases hn : n = ci
  · subst hn
    cases hget : cats.get? n with
    | none => rw [hget] at h; simp at h
    | some c =>
      rw [hget] at h
      rw [get?_modifyIdx_self, hget]
      simpa using hG c ai h
  · rw [get?_modifyIdx_ne _ hn]
    exact h

theorem game_fold_flag_mono (inner : Nat → List Nat) (ps : List (Nat × Nat))
    (cats : List JeopardyCategory) (ci ai : Nat)
    (h : flaggedIn cats ci ai = true) :
    flaggedIn
      (ps.foldl (fun cs pi => modifyIdx (fun c => c.double_jeopardy (inner pi.1)) pi.2 cs)
        cats) ci ai = true := by
  induction ps generalizing cats with
  | nil => exact h
  | cons p ps ih =>
    rw [List.foldl_cons]
    exact ih _ (flaggedIn_modifyIdx _ (fun c k hk => cat_dj_flag_mono c _ k hk) _ _ _ _ h)

theorem game_dj_flag_mono (g : JeopardyGame) (indices : List Nat) (inner : Nat → List Nat)
    (ci ai : Nat) (h : g.flagged ci ai = true) :
    (g.double_jeopardy indices inner).flagged ci ai = true := by
  rw [JeopardyGame.flagged] at h ⊢
  exact game_fold_flag_mono inner ((djSelection indices).enum) g.categories ci ai h

theorem game_fold_clear (inner : Nat → List Nat) (ps : List (Nat × Nat))
    (cats : List JeopardyCategory) :
    ((ps.foldl (fun cs pi => modifyIdx (fun c => c.double_jeopardy (inner pi.1)) pi.2 cs)
          cats).map JeopardyCategory.clear_dj) = cats.map JeopardyCategory.clear_dj := by
  induction ps generalizing cats with
  | nil => rfl
  | cons p ps ih =>
    rw [List.foldl_cons, ih, map_modifyIdx _ _ (fun c => cat_dj_clear c (inner p.1))]

theorem game_dj_clear (g : JeopardyGame) (indices : List Nat) (inner : Nat → List Nat) :
    (g.double_jeopardy indices inner).clear_dj = g.clear_dj := by
  rw [JeopardyGame.clear_dj, JeopardyGame.clear_dj]
  exact congrArg _ (game_fold_clear inner _ _)

theorem all_map_general {α β : Type} (f : α → β) (p : β → Bool) (l : List α) :
    (l.map f).all p = l.all (fun a => p (f a)) := by
  induction l with
  | nil => rfl
  | cons a as ih => simp [ih]

theorem game_is_valid_shape (g : JeopardyGame) :
    g.is_valid = ((g.shape.length == 5) && g.shape.all (fun n => n == 5)) := by
  rw [JeopardyGame.is_valid, JeopardyGame.shape, List.length_map, all_map_general]
  simp only [cat_is_valid_eq]

/-! The claims. -/

/-- C1: JeopardyGame::is_valid returns true iff the game has exactly 5
categories and every category reports valid; in particular it returns
false when the category count differs from 5 or some category has an
answer count other than 5. -/
theorem claim_C1_game_is_valid_iff (g : JeopardyGame) :
    (g.is_valid = true ↔ g.categories.length = 5 ∧ ∀ c ∈ g.categories, c.is_valid = true) ∧
    (g.categories.length ≠ 5 → g.is_valid = false) ∧
    (∀ c ∈ g.categories, c.answers.length ≠ 5 → g.is_valid = false) := by
  refine ⟨game_is_valid_iff g, ?_, ?_⟩
  · intro h
    cases hb : g.is_valid
    · rfl
    · exact absurd ((game_is_valid_iff g).mp hb).1 h
  · intro c hc hne
    cases hb : g.is_valid
    · rfl
    · exact absurd ((cat_is_valid_iff c).mp (((game_is_valid_iff g).mp hb).2 c hc)) hne

/-- C2: JeopardyCategory::is_valid returns true iff the category has
exactly 5 answers each of which is valid; every JeopardyAnswer of any
variant is valid, so category validity reduces to the count alone. -/
theorem claim_C2_category_validity_reduces_to_count (c : JeopardyCategory)
    (a : JeopardyAnswer) :
    (c.is_valid = true ↔ c.answers.length = 5 ∧ ∀ x ∈ c.answers, x.is_valid = true) ∧
    a.is_valid = true ∧
    (c.is_valid = true ↔ c.answers.length = 5) := by
  refine ⟨?_, answer_is_valid a, cat_is_valid_iff c⟩
  simp [JeopardyCategory.is_valid, List.all_eq_true]

/-- C7: for every input (some text or none) show returns the Other error
with the fixed message "Some error" and never the success result. -/
theorem claim_C7_show_always_fails (pre : Option String) :
    «show» pre = ToolResult.Err (ToolError.Other "Some error") ∧
    ∀ u : Unit, «show» pre ≠ ToolResult.Ok u :=
  ⟨rfl, fun _ h => nomatch h⟩

/-- C8: the Termination reporting of ToolResult yields the success exit
status exactly on the Ok variant; on Err it writes the error's display
message to stderr and yields the failure exit status. -/
theorem claim_C8_report_contract {T : Type} (r : ToolResult T) :
    ((r.report).1 = ExitCode.SUCCESS ↔ ∃ t, r = ToolResult.Ok t) ∧
    (∀ e, r = ToolResult.Err e → r.report = (ExitCode.FAILURE, [e.display])) := by
  cases r with
  | Ok t =>
    refine ⟨⟨fun _ => ⟨t, rfl⟩, fun _ => rfl⟩, ?_⟩
    intro e he
    exact nomatch he
  | Err e =>
    constructor
    · constructor
      · intro h
        exact nomatch h
      · rintro ⟨t, ht⟩
        exact nomatch ht
    · intro e' he
      obtain rfl : e = e' := by injection he
      rfl

/-- C9: is_valid depends only on the shape of a game, never on payload
content: two games with the same per-category answer counts get the same
verdict. -/
theorem claim_C9_is_valid_shape_only (g1 g2 : JeopardyGame)
    (h : g1.shape = g2.shape) : g1.is_valid = g2.is_valid := by
  rw [game_is_valid_shape, game_is_valid_shape, h]

/-- Witness for C9: gameEx (Text answers, flags false, names A..E) and
gameEx2 (Image answers, flags true, names V..Z) share a shape and share
the verdict. -/
theorem claim_C9_is_valid_shape_only_witness :
    gameEx.is_valid = gameEx2.is_valid :=
  claim_C9_is_valid_shape_only gameEx gameEx2 (by decide)

/-- C10: double_jeopardy changes nothing but double_jeopardy flags:
clearing every flag after a call gives the same game as clearing every
flag before it (so category count, names, answer counts and order,
variants and payloads are untouched). -/
theorem claim_C10_frame (g : JeopardyGame) (indices : List Nat)
    (inner : Nat → List Nat) :
    (g.double_jeopardy indices inner).clear_dj = g.clear_dj :=
  game_dj_clear g indices inner

/-- C3: on a valid 5 by 5 game whose flags are all false, one call of
JeopardyGame::double_jeopardy, whatever the outcomes of the outer shuffle
and the two inner shuffles, leaves exactly 2 categories with exactly 2 of
their 5 answers flagged, and every answer of every other category still
unflagged. -/
theorem claim_C3_double_jeopardy_two_by_two (g : JeopardyGame) (indices : List Nat)
    (inner : Nat → List Nat)
    (hv : g.is_valid = true)
    (hall : ∀ c ∈ g.categories, ∀ a ∈ c.answers, a.dj = false)
    (hperm : indices.Perm (List.range g.categories.length))
    (hinner : ∀ k, k < 2 → (inner k).Perm (List.range 5)) :
    ((g.double_jeopardy indices inner).categories.countP (fun c => countDJ c == 2) = 2) ∧
    ∀ c ∈ (g.double_jeopardy indices inner).categories,
      (countDJ c = 2 ∧ c.answers.length = 5) ∨ ∀ a ∈ c.answers, a.dj = false := by
  obtain ⟨hlen5, hcv⟩ := (game_is_valid_iff g).mp hv
  rw [hlen5] at hperm
  obtain ⟨i, j, t, hidx, hij, hi5, hj5⟩ := take2_of_perm hperm (by omega)
  subst hidx
  have hi : i < g.categories.length := by omega
  have hj : j < g.categories.length := by omega
  have hgi : g.categories.get? i = some (g.categories.get ⟨i, hi⟩) := List.get?_eq_get hi
  have hgj : g.categories.get? j = some (g.categories.get ⟨j, hj⟩) := List.get?_eq_get hj
  have hmemi : g.categories.get ⟨i, hi⟩ ∈ g.categories := List.get_mem _ _ _
  have hmemj : g.categories.get ⟨j, hj⟩ ∈ g.categories := List.get_mem _ _ _
  have hcilen : (g.categories.get ⟨i, hi⟩).answers.length = 5 :=
    (cat_is_valid_iff _).mp (hcv _ hmemi)
  have hcjlen : (g.categories.get ⟨j, hj⟩).answers.length = 5 :=
    (cat_is_valid_iff _).mp (hcv _ hmemj)
  have hcicnt : countDJ ((g.categories.get ⟨i, hi⟩).double_jeopardy (inner 0)) = 2 :=
    cat_dj_count _ _ hcilen (hall _ hmemi) (hinner 0 (by omega))
  have hcjcnt : countDJ ((g.categories.get ⟨j, hj⟩).double_jeopardy (inner 1)) = 2 :=
    cat_dj_count _ _ hcjlen (hall _ hmemj) (hinner 1 (by omega))
  have h0 : g.categories.countP (fun c => countDJ c == 2) = 0 :=
    List.countP_eq_zero.mpr fun c hc => by simp [cat_dj_all_false_of c (hall c hc)]
  have hgj2 : (modifyIdx (fun c => c.double_jeopardy (inner 0)) i g.categories).get? j =
      some (g.categories.get ⟨j, hj⟩) := by
    rw [get?_modifyIdx_ne _ hij]
    exact hgj
  have hpfi : (countDJ (g.categories.get ⟨i, hi⟩) == 2) = false := by
    rw [cat_dj_all_false_of _ (hall _ hmemi)]
    rfl
  have hpti : (countDJ ((g.categories.get ⟨i, hi⟩).double_jeopardy (inner 0)) == 2) = true := by
    rw [hcicnt]
    rfl
  have hpfj : (countDJ (g.categories.get ⟨j, hj⟩) == 2) = false := by
    rw [cat_dj_all_false_of _ (hall _ hmemj)]
    rfl
  have hptj : (countDJ ((g.categories.get ⟨j, hj⟩).double_jeopardy (inner 1)) == 2) = true := by
    rw [hcjcnt]
    rfl
  have h1 : (modifyIdx (fun c => c.double_jeopardy (inner 0)) i g.categories).countP
      (fun c => countDJ c == 2) = 1 := by
    rw [countP_modifyIdx _ _ hgi hpfi hpti, h0]
  have h2 : (modifyIdx (fun c => c.double_jeopardy (inner 1)) j
        (modifyIdx (fun c => c.double_jeopardy (inner 0)) i g.categories)).countP
      (fun c => countDJ c == 2) = 2 := by
    rw [countP_modifyIdx _ _ hgj2 hpfj hptj, h1]
  constructor
  · rw [game_dj_unfold2]
    exact h2
  · intro c hc
    rw [game_dj_unfold2] at hc
    obtain ⟨k, hk⟩ := List.mem_iff_get?.mp hc
    by_cases hkj : j = k
    · subst hkj
      rw [get?_modifyIdx_self, hgj2] at hk
      obtain rfl : (g.categories.get ⟨j, hj⟩).double_jeopardy (inner 1) = c := by
        simpa using hk
      refine Or.inl ⟨hcjcnt, ?_⟩
      rw [cat_dj_answers_length]
      exact hcjlen
    · rw [get?_modifyIdx_ne _ hkj] at hk
      by_cases hki : i = k
      · subst hki
        rw [get?_modifyIdx_self, hgi] at hk
        obtain rfl : (g.categories.get ⟨i, hi⟩).double_jeopardy (inner 0) = c := by
          simpa using hk
        refine Or.inl ⟨hcicnt, ?_⟩
        rw [cat_dj_answers_length]
        exact hcilen
      · rw [get?_modifyIdx_ne _ hki] at hk
        exact Or.inr (hall c (List.mem_iff_get?.mpr ⟨k, hk⟩))

/-- Witness for C3 at the concrete all-false 5 by 5 game gameEx with the
identity shuffles. -/
theorem claim_C3_double_jeopardy_two_by_two_witness :
    ((gameEx.double_jeopardy (List.range 5) (fun _ => List.range 5)).categories.countP
        (fun c => countDJ c == 2) = 2) ∧
    ∀ c ∈ (gameEx.double_jeopardy (List.range 5) (fun _ => List.range 5)).categories,
      (countDJ c = 2 ∧ c.answers.length = 5) ∨ ∀ a ∈ c.answers, a.dj = false :=
  claim_C3_double_jeopardy_two_by_two gameEx (List.range 5) (fun _ => List.range 5)
    (by decide) (by decide) (List.Perm.refl _) (fun _ _ => List.Perm.refl _)

/-- C4: on a game with at least 2 categories (and a category with at
least 2 answers) the first-two selection over the shuffled index list
picks exactly two indices and never the same one twice, at both the game
and the category level. -/
theorem claim_C4_selection_distinct (g : JeopardyGame) (c : JeopardyCategory)
    (idxg idxc : List Nat)
    (hg2 : 2 ≤ g.categories.length)
    (hpg : idxg.Perm (List.range g.categories.length))
    (hc2 : 2 ≤ c.answers.length)
    (hpc : idxc.Perm (List.range c.answers.length)) :
    ((djSelection idxg).Nodup ∧ (djSelection idxg).length = 2) ∧
    ((djSelection idxc).Nodup ∧ (djSelection idxc).length = 2) := by
  constructor
  · obtain ⟨i, j, t, hidx, hij, _, _⟩ := take2_of_perm hpg hg2
    subst hidx
    have hsel : djSelection (i :: j :: t) = [i, j] := rfl
    rw [hsel]
    exact ⟨by simp [hij], rfl⟩
  · obtain ⟨i, j, t, hidx, hij, _, _⟩ := take2_of_perm hpc hc2
    subst hidx
    have hsel : djSelection (i :: j :: t) = [i, j] := rfl
    rw [hsel]
    exact ⟨by simp [hij], rfl⟩

/-- Witness for C4 at the 5-category gameEx, a 5-answer category and the
identity shuffles. -/
theorem claim_C4_selection_distinct_witness :
    ((djSelection (List.range 5)).Nodup ∧ (djSelection (List.range 5)).length = 2) ∧
    ((djSelection (List.range 5)).Nodup ∧ (djSelection (List.range 5)).length = 2) :=
  claim_C4_selection_distinct gameEx (mkCategory "A") (List.range 5) (List.range 5)
    (by decide) (List.Perm.refl _) (by decide) (List.Perm.refl _)

/-- C5: double_jeopardy only ever turns flags on: an answer flagged true
before a game-level (or category-level) call is still flagged true after
it, whatever the shuffle outcomes. -/
theorem claim_C5_flags_monotone (g : JeopardyGame) (c : JeopardyCategory)
    (indices idxc : List Nat) (inner : Nat → List Nat) (ci ai k : Nat)
    (hg : g.flagged ci ai = true) (hc : c.flaggedAt k = true) :
    (g.double_jeopardy indices inner).flagged ci ai = true ∧
    (c.double_jeopardy idxc).flaggedAt k = true :=
  ⟨game_dj_flag_mono g indices inner ci ai hg, cat_dj_flag_mono c idxc k hc⟩

/-- Witness for C5: a game and a category with one flag already true keep
it true through a call. -/
theorem claim_C5_flags_monotone_witness :
    (flaggedGame.double_jeopardy [0] (fun _ => [0])).flagged 0 0 = true ∧
    (flaggedCat.double_jeopardy [0]).flaggedAt 0 = true :=
  claim_C5_flags_monotone flaggedGame flaggedCat [0] [0] (fun _ => [0]) 0 0 0
    (by decide) (by decide)

/-- C6: on a game with fewer than 2 categories (and a category with fewer
than 2 answers) double_jeopardy completes without error: the first-two
selection silently yields as many indices as exist, each selected index is
in bounds, and on an empty collection the call changes nothing. -/
theorem claim_C6_undersized_silent (g : JeopardyGame) (c : JeopardyCategory)
    (indices idxc : List Nat) (inner : Nat → List Nat)
    (hg : g.categories.length < 2)
    (hpg : indices.Perm (List.range g.categories.length))
    (hc : c.answers.length < 2)
    (hpc : idxc.Perm (List.range c.answers.length)) :
    ((∀ i ∈ djSelection indices, i < g.categories.length) ∧
      (djSelection indices).length = g.categories.length ∧
      (g.categories = [] → g.double_jeopardy indices inner = g)) ∧
    ((∀ i ∈ djSelection idxc, i < c.answers.length) ∧
      (djSelection idxc).length = c.answers.length ∧
      (c.answers = [] → c.double_jeopardy idxc = c)) := by
  have hlg : indices.length = g.categories.length := by simpa using hpg.length_eq
  have hlc : idxc.length = c.answers.length := by simpa using hpc.length_eq
  constructor
  · refine ⟨?_, ?_, ?_⟩
    · intro i hmem
      exact List.mem_range.mp (hpg.mem_iff.mp (List.mem_of_mem_take hmem))
    · rw [djSelection, List.length_take]
      omega
    · intro hnil
      have h0 : indices = [] := by
        refine List.length_eq_zero.mp ?_
        rw [hlg, hnil]
        rfl
      subst h0
      rfl
  · refine ⟨?_, ?_, ?_⟩
    · intro i hmem
      exact List.mem_range.mp (hpc.mem_iff.mp (List.mem_of_mem_take hmem))
    · rw [djSelection, List.length_take]
      omega
    · intro hnil
      have h0 : idxc = [] := by
        refine List.length_eq_zero.mp ?_
        rw [hlc, hnil]
        rfl
      subst h0
      rfl

/-- Witness for C6: the empty game JeopardyGame.new and the one-answer
tinyCategory go through double_jeopardy untouched and in bounds. -/
theorem claim_C6_undersized_silent_witness :
    ((∀ i ∈ djSelection [], i < JeopardyGame.new.categories.length) ∧
      (djSelection []).length = JeopardyGame.new.categories.length ∧
      (JeopardyGame.new.categories = [] →
        JeopardyGame.new.double_jeopardy [] (fun _ => []) = JeopardyGame.new)) ∧
    ((∀ i ∈ djSelection [0], i < tinyCategory.answers.length) ∧
      (djSelection [0]).length = tinyCategory.answers.length ∧
      (tinyCategory.answers = [] → tinyCategory.double_jeopardy [0] = tinyCategory)) :=
  claim_C6_undersized_silent JeopardyGame.new tinyCategory [] [0] (fun _ => [])
    (by decide) (List.Perm.refl _) (by decide) (List.Perm.refl _)
